import Mathlib

/-!
Shallow embedding of the playlist-tracking core of the `anime-downloader`
repository (modules `library.py`, `animevost.py`, `sites/animevost.py`,
`downloader.py`, `exceptions.py`), together with theorems settling the
frozen claims about it.

Python strings are `String`, Python ints are `Int` (or `Nat` where the
source value is manifestly non-negative), tuples/lists of links are
`List String`, file bytes are `List Nat`, raised exceptions are the
`PyErr` inductive carried in `Except`.
-/

namespace AnimeDL

/-- The Python exceptions the embedded code can raise. -/
inductive PyErr
  | indexError
  | typeError
  | attributeError
  | keyError
  | objectNotFoundInDBError
  | linkHasNoIDError
  deriving DecidableEq, Repr

/-- Result of `Playlist.__getitem__`: a single link or a tuple of links. -/
inductive GetResult
  | one (s : String)
  | many (l : List String)
  deriving DecidableEq, Repr

/-- The key argument of `Playlist.__getitem__` in `library.py`: an int, a
slice (start/stop, each possibly `None`; every call site in the repository
leaves the step at `None`), or `None`. -/
inductive PyKey
  | int (k : Int)
  | slice (start stop : Option Int)
  | noneKey
  deriving DecidableEq, Repr

/-- Python membership test `x in {*range(n), None}` for `x` an optional
int (`None` is a member; an int is a member iff `0 <= x < n`). -/
def memRange (n : Nat) : Option Int → Bool
  | Option.none => true
  | some v => decide (0 ≤ v) && decide (v < (n : Int))

/-- Python slicing `l[start:stop]` restricted to `start`/`stop` that are
`None` or non-negative ints (the only values reaching the slice in
`Playlist.__getitem__` after its range check). -/
def pySlice (l : List String) (start stop : Option Int) : List String :=
  let s : Nat := ((start.getD 0).toNat)
  let t : Nat := ((stop.map Int.toNat).getD l.length)
  (l.take t).drop s

/-- `Playlist.__getitem__` from `library.py` (lines 227-254): the stored
tuple is `pl`; slice keys get `start -= 1` (when given), both bounds are
checked for membership in `{*range(len(pl)), None}`, then `start > stop`
(both given) is rejected; int keys get `key -= 1` and the same range
check; `None` returns `pl[-1]`. -/
def pyGetItem (pl : List String) (key : PyKey) : Except PyErr GetResult :=
  match key with
  | .slice start stop =>
    let start2 := start.map (· - 1)
    if !memRange pl.length start2 || !memRange pl.length stop then
      .error .indexError
    else if (match start2, stop with
             | some a, some b => decide (a > b)
             | _, _ => false) then
      .error .indexError
    else
      .ok (.many (pySlice pl start2 stop))
  | .int k =>
    let k2 := k - 1
    if !memRange pl.length (some k2) then
      .error .indexError
    else
      match pl.get? k2.toNat with
      | some v => .ok (.one v)
      | Option.none => .error .indexError
  | .noneKey =>
    match pl.getLast? with
    | some v => .ok (.one v)
    | Option.none => .error .indexError

/-- For an in-range 1-based int key, `__getitem__` returns the element at
0-based position `k - 1`. -/
theorem pyGetItem_int_of_range (pl : List String) (k : Int)
    (h1 : 1 ≤ k) (h2 : k ≤ (pl.length : Int)) :
    pyGetItem pl (.int k) =
      match pl.get? (k - 1).toNat with
      | some v => .ok (.one v)
      | Option.none => .error .indexError := by
  simp only [pyGetItem, memRange]
  have hb : (decide (0 ≤ k - 1) && decide (k - 1 < (pl.length : Int))) = true := by
    simp only [Bool.and_eq_true, decide_eq_true_eq]
    omega
  simp only [hb, Bool.not_true, Bool.false_eq_true, if_false]

/-- An in-range 1-based int key always yields an element. -/
theorem pyGetItem_int_ok (pl : List String) (k : Int)
    (h1 : 1 ≤ k) (h2 : k ≤ (pl.length : Int)) :
    ∃ v, pyGetItem pl (.int k) = .ok (.one v) ∧
      pl.get? (k - 1).toNat = some v := by
  rw [pyGetItem_int_of_range pl k h1 h2]
  have hlt : (k - 1).toNat < pl.length := by omega
  have hv := List.get?_eq_get (l := pl) hlt
  exact ⟨pl.get ⟨(k - 1).toNat, hlt⟩, by rw [hv], hv⟩

/-- **C2.** Indexing a `Playlist` with an integer key `k` succeeds exactly
when `1 ≤ k ≤ len` (so `0` and every out-of-range int raise the index
error), and key `None` on a non-empty playlist returns the last element,
i.e. the same result as key `len`. -/
theorem getitem_int_range_and_none (pl : List String) (k : Int) :
    ((∃ v, pyGetItem pl (.int k) = .ok (.one v)) ↔
      1 ≤ k ∧ k ≤ (pl.length : Int)) ∧
    (¬(1 ≤ k ∧ k ≤ (pl.length : Int)) →
      pyGetItem pl (.int k) = .error .indexError) ∧
    (pl ≠ [] → pyGetItem pl .noneKey = pyGetItem pl (.int (pl.length : Int))) := by
  refine ⟨⟨fun ⟨v, hv⟩ => ?_, fun ⟨h1, h2⟩ => ?_⟩, fun h => ?_, fun hne => ?_⟩
  · by_contra hk
    have herr : pyGetItem pl (.int k) = .error .indexError := by
      simp only [pyGetItem, memRange]
      have hb : (decide (0 ≤ k - 1) && decide (k - 1 < (pl.length : Int))) = false := by
        simp only [Bool.and_eq_false_iff, decide_eq_false_iff_not]
        omega
      simp only [hb, Bool.not_false, if_true]
    rw [herr] at hv
    exact Except.noConfusion hv
  · obtain ⟨v, hv, _⟩ := pyGetItem_int_ok pl k h1 h2
    exact ⟨v, hv⟩
  · simp only [pyGetItem, memRange]
    have hb : (decide (0 ≤ k - 1) && decide (k - 1 < (pl.length : Int))) = false := by
      simp only [Bool.and_eq_false_iff, decide_eq_false_iff_not]
      omega
    simp only [hb, Bool.not_false, if_true]
  · have hlen : 1 ≤ (pl.length : Int) := by
      have : 0 < pl.length := List.length_pos.mpr hne
      omega
    rw [pyGetItem_int_of_range pl (pl.length : Int) hlen le_rfl]
    have ht : ((pl.length : Int) - 1).toNat = pl.length - 1 := by omega
    rw [ht]
    simp only [pyGetItem]
    rw [List.getLast?_eq_getElem?, List.get?_eq_getElem?]

/-- Witness for C2 at a concrete playlist: index 5 is out of range on a
2-element playlist and fails; `None` resolves to index 2 (the last). -/
theorem getitem_int_range_and_none_witness :
    pyGetItem ["a", "b"] (.int 5) = .error .indexError ∧
    pyGetItem ["a", "b"] .noneKey =
      pyGetItem ["a", "b"] (.int ((["a", "b"] : List String).length : Int)) :=
  ⟨(getitem_int_range_and_none ["a", "b"] 5).2.1 (by decide),
   (getitem_int_range_and_none ["a", "b"] 5).2.2 (by decide)⟩

/-- Spec-side description of when the slice branch raises: the explicit
start lies outside `[1, len]`, or the explicit stop lies outside
`[0, len - 1]`, or both bounds are given and `stop < start - 1`. -/
def sliceFails (n : Nat) (start stop : Option Int) : Prop :=
  (∃ a, start = some a ∧ ¬(1 ≤ a ∧ a ≤ (n : Int))) ∨
  (∃ b, stop = some b ∧ ¬(0 ≤ b ∧ b < (n : Int))) ∨
  (∃ a b, start = some a ∧ stop = some b ∧ b < a - 1)

/-- Spec-side inclusive 1-based subsequence: the elements at 1-based
positions `s` through `t`. -/
def inclusiveSlice (pl : List String) (s t : Int) : List String :=
  (pl.take t.toNat).drop (s - 1).toNat

/-- **C3 (counterexample).** On the 2-element playlist `["a", "b"]` the
slice `[2:1]` has explicit bounds with `start > stop`, both inside
`[1, length]`, yet `__getitem__` returns the empty tuple instead of
raising the index error (the code compares the already-decremented start
against the raw stop). -/
theorem slice_start_gt_stop_returns_empty :
    pyGetItem ["a", "b"] (.slice (some 2) (some 1)) = .ok (.many []) ∧
    pyGetItem ["a", "b"] (.slice (some 2) (some 1)) ≠ .error .indexError :=
  ⟨rfl, fun h => Except.noConfusion h⟩

/-- The slice value computed by `__getitem__` (on the decremented start)
coincides, unconditionally, with the inclusive 1-based subsequence from
`start` (default 1) through `stop` (default `length`). -/
theorem pySlice_eq_inclusiveSlice (pl : List String) (start stop : Option Int) :
    pySlice pl (start.map (· - 1)) stop =
      inclusiveSlice pl (start.getD 1) (stop.getD (pl.length : Int)) := by
  cases start <;> cases stop <;>
    simp [pySlice, inclusiveSlice]

/-- The boolean failure condition actually evaluated by the slice branch. -/
def sliceFailsB (n : Nat) (start stop : Option Int) : Bool :=
  !memRange n (start.map (· - 1)) || !memRange n stop ||
    (match start.map (· - 1), stop with
     | some a, some b => decide (a > b)
     | _, _ => false)

/-- Merging a nested boolean if with an or-condition. -/
theorem ite_or_ite {α : Type} (a b c : Bool) (x y : α) :
    (if (a || b) = true then x else if c = true then x else y) =
      (if (a || b || c) = true then x else y) := by
  cases a <;> cases b <;> cases c <;> simp

/-- The slice branch raises the index error exactly when its boolean
failure condition holds, and returns the slice value otherwise. -/
theorem pyGetItem_slice_cases (pl : List String) (start stop : Option Int) :
    pyGetItem pl (.slice start stop) =
      if sliceFailsB pl.length start stop then .error .indexError
      else .ok (.many (pySlice pl (start.map (· - 1)) stop)) := by
  simp only [pyGetItem, sliceFailsB]
  exact ite_or_ite _ _ _ _ _

/-- The boolean failure condition agrees with its spec-side description. -/
theorem sliceFailsB_iff (n : Nat) (start stop : Option Int) :
    sliceFailsB n start stop = true ↔ sliceFails n start stop := by
  cases start with
  | none =>
    cases stop with
    | none => simp [sliceFailsB, sliceFails, memRange]
    | some b =>
      simp only [sliceFailsB, sliceFails, memRange, Option.map_none']
      constructor
      · intro h
        refine Or.inr (Or.inl ⟨b, rfl, ?_⟩)
        simp only [Bool.not_true, Bool.false_or, Bool.or_eq_true,
          Bool.not_eq_true', Bool.and_eq_false_iff, decide_eq_false_iff_not] at h
        rcases h with h | h
        · omega
        · cases h
      · rintro (⟨a, ha, _⟩ | ⟨b2, hb2, hcon⟩ | ⟨a, b2, ha, _, _⟩)
        · cases ha
        · cases hb2
          simp only [Bool.not_true, Bool.false_or, Bool.or_eq_true,
            Bool.not_eq_true', Bool.and_eq_false_iff, decide_eq_false_iff_not]
          left
          omega
        · cases ha
  | some a =>
    cases stop with
    | none =>
      simp only [sliceFailsB, sliceFails, memRange, Option.map_some']
      constructor
      · intro h
        refine Or.inl ⟨a, rfl, ?_⟩
        simp only [Bool.or_eq_true, Bool.not_eq_true', Bool.not_false,
          Bool.and_eq_false_iff, decide_eq_false_iff_not] at h
        rcases h with (h | h) | h
        · omega
        · cases h
        · cases h
      · rintro (⟨a2, ha2, hcon⟩ | ⟨b, hb, _⟩ | ⟨a2, b, _, hb, _⟩)
        · cases ha2
          simp only [Bool.or_eq_true, Bool.not_eq_true', Bool.and_eq_false_iff,
            decide_eq_false_iff_not]
          left; left
          omega
        · cases hb
        · cases hb
    | some b =>
      simp only [sliceFailsB, sliceFails, memRange, Option.map_some']
      simp only [Bool.or_eq_true, Bool.not_eq_true', Bool.and_eq_false_iff,
        decide_eq_false_iff_not, decide_eq_true_eq]
      constructor
      · rintro ((h | h) | h)
        · exact Or.inl ⟨a, rfl, by omega⟩
        · exact Or.inr (Or.inl ⟨b, rfl, by omega⟩)
        · exact Or.inr (Or.inr ⟨a, b, rfl, rfl, by omega⟩)
      · rintro (⟨a2, ha2, hcon⟩ | ⟨b2, hb2, hcon⟩ | ⟨a2, b2, ha2, hb2, hcon⟩)
        · cases ha2; left; left; omega
        · cases hb2; left; right; omega
        · cases ha2; cases hb2; right; omega

/-- **C3 (amended).** The slice access fails with the index error exactly
when the explicit start lies outside `[1, length]`, the explicit stop lies
outside `[0, length - 1]`, or both bounds are given with
`start > stop + 1`; in every other case it returns the inclusive 1-based
subsequence from `start` (default 1) through `stop` (default `length`),
with a bound of `None` meaning open-ended. -/
theorem slice_semantics (pl : List String) (start stop : Option Int) :
    (pyGetItem pl (.slice start stop) = .error .indexError ↔
      sliceFails pl.length start stop) ∧
    (¬ sliceFails pl.length start stop →
      pyGetItem pl (.slice start stop) =
        .ok (.many (inclusiveSlice pl (start.getD 1) (stop.getD (pl.length : Int))))) := by
  rw [pyGetItem_slice_cases pl start stop]
  constructor
  · constructor
    · intro h
      by_cases hf : sliceFailsB pl.length start stop = true
      · exact (sliceFailsB_iff pl.length start stop).mp hf
      · rw [if_neg hf] at h
        exact Except.noConfusion h
    · intro h
      rw [if_pos ((sliceFailsB_iff pl.length start stop).mpr h)]
  · intro h
    have hf : ¬ sliceFailsB pl.length start stop = true :=
      fun hb => h ((sliceFailsB_iff pl.length start stop).mp hb)
    rw [if_neg hf, pySlice_eq_inclusiveSlice]

/-- Witness for C3's amended theorem: the slice `[2:1]` on `["a", "b"]`
does not satisfy the failure condition and evaluates to the (empty)
inclusive subsequence. -/
theorem slice_semantics_witness :
    pyGetItem ["a", "b"] (.slice (some 2) (some 1)) =
      .ok (.many (inclusiveSlice ["a", "b"] 2 1)) :=
  (slice_semantics ["a", "b"] (some 2) (some 1)).2 (by
    rintro (⟨a, ha, hcon⟩ | ⟨b, hb, hcon⟩ | ⟨a, b, ha, hb, hcon⟩)
    · cases ha; simp at hcon
    · cases hb; simp at hcon
    · cases ha; cases hb; omega)
/-- Python dict assignment `m[k] = v` on an insertion-ordered association
list: replace the value in place if the key is present, append otherwise. -/
def dictInsert (m : List (Int × String)) (k : Int) (v : String) :
    List (Int × String) :=
  match m with
  | [] => [(k, v)]
  | (k2, v2) :: rest =>
    if k2 = k then (k2, v) :: rest else (k2, v2) :: dictInsert rest k v

/-- Python dict read `m[k]` (as an option). -/
def dictLookup (m : List (Int × String)) (k : Int) : Option String :=
  (m.find? (fun e => e.1 == k)).map Prod.snd

/-- The keys of the dict, in insertion order. -/
def dictKeys (m : List (Int × String)) : List Int := m.map Prod.fst

/-- The dict built by the `for` loop of `_get_links_to_episodes`
(`res = {}; for ...: res[episode] = link`). -/
def buildDict (entries : List (Int × String)) : List (Int × String) :=
  entries.foldl (fun m e => dictInsert m e.1 e.2) []

/-- `Playlist._get_links_to_episodes` (`sites/animevost.py` lines 291-303,
same loop in `animevost.py` lines 355-364): build `res` keyed by the
parsed episode number (duplicates overwrite), then
`[res[i] for i in sorted(res)]`. The episode-number parse of each label
is taken as the `Int` key of the entry. -/
def getLinksToEpisodes (entries : List (Int × String)) : List String :=
  (List.insertionSort (· ≤ ·) (dictKeys (buildDict entries))).map
    (fun k => (dictLookup (buildDict entries) k).getD "")

/-- Spec-side description: the distinct episode numbers of the build
input, sorted ascending. -/
def sortedDistinctKeys (entries : List (Int × String)) : List Int :=
  List.insertionSort (· ≤ ·) ((entries.map Prod.fst).dedup)

/-- Spec-side description: the URL of the last entry carrying key `k`
(last write wins). -/
def lastValFor (entries : List (Int × String)) (k : Int) : Option String :=
  ((entries.filter (fun e => e.1 == k)).getLast?).map Prod.snd

theorem dictLookup_cons (k3 : Int) (v3 : String) (rest : List (Int × String))
    (k2 : Int) :
    dictLookup ((k3, v3) :: rest) k2 =
      if k3 = k2 then some v3 else dictLookup rest k2 := by
  simp only [dictLookup, List.find?]
  by_cases h : k3 = k2
  · have hb : (k3 == k2) = true := by simpa using h
    simp [hb, h]
  · have hb : (k3 == k2) = false := by simpa using h
    simp [hb, h]

theorem dictLookup_insert (m : List (Int × String)) (k : Int) (v : String)
    (k2 : Int) :
    dictLookup (dictInsert m k v) k2 =
      if k2 = k then some v else dictLookup m k2 := by
  induction m with
  | nil =>
    show dictLookup [(k, v)] k2 = _
    rw [dictLookup_cons]
    by_cases h : k2 = k
    · simp [h]
    · rw [if_neg (fun hh => h hh.symm), if_neg h]
  | cons e rest ih =>
    obtain ⟨k3, v3⟩ := e
    simp only [dictInsert]
    by_cases h3 : k3 = k
    · subst h3
      rw [if_pos rfl, dictLookup_cons, dictLookup_cons]
      by_cases h : k3 = k2
      · rw [if_pos h, if_pos h.symm]
      · rw [if_neg h, if_neg h, if_neg (fun hh => h hh.symm)]
    · rw [if_neg h3, dictLookup_cons, dictLookup_cons]
      by_cases h : k3 = k2
      · have : ¬ k2 = k := fun hh => h3 (h.trans hh)
        rw [if_pos h, if_pos h, if_neg this]
      · rw [if_neg h, if_neg h, ih]

theorem dictKeys_insert (m : List (Int × String)) (k : Int) (v : String) :
    dictKeys (dictInsert m k v) =
      if k ∈ dictKeys m then dictKeys m else dictKeys m ++ [k] := by
  induction m with
  | nil => simp [dictInsert, dictKeys]
  | cons e rest ih =>
    obtain ⟨k3, v3⟩ := e
    by_cases h3 : k3 = k
    · subst h3
      simp [dictInsert, dictKeys]
    · simp only [dictInsert, if_neg h3, dictKeys, List.map_cons] at ih ⊢
      by_cases hmem : k ∈ rest.map Prod.fst
      · rw [if_pos hmem] at ih
        rw [ih, if_pos (List.mem_cons_of_mem _ hmem)]
      · rw [if_neg hmem] at ih
        have hcond : k ∉ k3 :: rest.map Prod.fst := by
          simp only [List.mem_cons]
          rintro (hh | hh)
          · exact h3 hh.symm
          · exact hmem hh
        rw [ih, if_neg hcond]
        simp

theorem dictKeys_insert_nodup (m : List (Int × String)) (k : Int) (v : String)
    (h : (dictKeys m).Nodup) : (dictKeys (dictInsert m k v)).Nodup := by
  rw [dictKeys_insert]
  by_cases hmem : k ∈ dictKeys m
  · rwa [if_pos hmem]
  · rw [if_neg hmem]
    refine List.Nodup.append h (List.nodup_singleton k) ?_
    intro a ha hb
    rw [List.mem_singleton] at hb
    subst hb
    exact hmem ha

theorem mem_dictKeys_insert (m : List (Int × String)) (k : Int) (v : String)
    (k2 : Int) :
    k2 ∈ dictKeys (dictInsert m k v) ↔ k2 ∈ dictKeys m ∨ k2 = k := by
  rw [dictKeys_insert]
  by_cases hmem : k ∈ dictKeys m
  · rw [if_pos hmem]
    constructor
    · exact Or.inl
    · rintro (h | h)
      · exact h
      · subst h; exact hmem
  · rw [if_neg hmem]
    simp

theorem getLast?_cons_orElse {α : Type} (x : α) (l : List α) :
    (x :: l).getLast? = (l.getLast? <|> some x) := by
  induction l generalizing x with
  | nil => simp
  | cons y ys ih =>
    rw [List.getLast?_cons_cons, ih y]
    cases ys.getLast? <;> simp

theorem lastValFor_cons (e : Int × String) (rest : List (Int × String))
    (k : Int) :
    lastValFor (e :: rest) k =
      if e.1 = k then ((lastValFor rest k) <|> some e.2)
      else lastValFor rest k := by
  by_cases h : e.1 = k
  · have hb : (e.1 == k) = true := by simpa using h
    rw [if_pos h]
    simp only [lastValFor, List.filter_cons, hb, if_true]
    rw [getLast?_cons_orElse]
    cases (rest.filter (fun e => e.1 == k)).getLast? <;> simp
  · have hb : (e.1 == k) = false := by simpa using h
    rw [if_neg h]
    simp [lastValFor, List.filter_cons, hb]

theorem buildDict_go_lookup (entries : List (Int × String))
    (m : List (Int × String)) (k : Int) :
    dictLookup (entries.foldl (fun m e => dictInsert m e.1 e.2) m) k =
      ((lastValFor entries k) <|> dictLookup m k) := by
  induction entries generalizing m with
  | nil => simp [lastValFor]
  | cons e rest ih =>
    simp only [List.foldl_cons]
    rw [ih, lastValFor_cons]
    by_cases h : e.1 = k
    · rw [if_pos h, dictLookup_insert, if_pos h.symm]
      cases lastValFor rest k <;> simp
    · rw [if_neg h, dictLookup_insert, if_neg (fun hh => h hh.symm)]

theorem buildDict_go_mem (entries : List (Int × String))
    (m : List (Int × String)) (k : Int) :
    k ∈ dictKeys (entries.foldl (fun m e => dictInsert m e.1 e.2) m) ↔
      k ∈ dictKeys m ∨ k ∈ entries.map Prod.fst := by
  induction entries generalizing m with
  | nil => simp
  | cons e rest ih =>
    simp only [List.foldl_cons, List.map_cons, List.mem_cons]
    rw [ih, mem_dictKeys_insert]
    tauto

theorem buildDict_go_nodup (entries : List (Int × String))
    (m : List (Int × String)) (h : (dictKeys m).Nodup) :
    (dictKeys (entries.foldl (fun m e => dictInsert m e.1 e.2) m)).Nodup := by
  induction entries generalizing m with
  | nil => exact h
  | cons e rest ih =>
    simp only [List.foldl_cons]
    exact ih _ (dictKeys_insert_nodup _ _ _ h)

theorem buildDict_lookup (entries : List (Int × String)) (k : Int) :
    dictLookup (buildDict entries) k = lastValFor entries k := by
  rw [buildDict, buildDict_go_lookup]
  cases lastValFor entries k <;> simp [dictLookup]

theorem buildDict_mem (entries : List (Int × String)) (k : Int) :
    k ∈ dictKeys (buildDict entries) ↔ k ∈ entries.map Prod.fst := by
  rw [buildDict, buildDict_go_mem]
  simp [dictKeys]

theorem buildDict_nodup (entries : List (Int × String)) :
    (dictKeys (buildDict entries)).Nodup :=
  buildDict_go_nodup entries [] (by simp [dictKeys])

theorem mem_lastValFor (entries : List (Int × String)) (k : Int) :
    k ∈ entries.map Prod.fst ↔ (lastValFor entries k).isSome = true := by
  induction entries with
  | nil => simp [lastValFor]
  | cons e rest ih =>
    rw [lastValFor_cons]
    by_cases h : e.1 = k
    · rw [if_pos h]
      cases lastValFor rest k <;> simp [h]
    · rw [if_neg h]
      simp only [List.map_cons, List.mem_cons]
      rw [ih]
      constructor
      · rintro (hh | hh)
        · exact absurd hh.symm h
        · exact hh
      · exact Or.inr

/-- The sorted key list the build iterates over is exactly the spec-side
sorted distinct episode numbers. -/
theorem sortedKeys_eq (entries : List (Int × String)) :
    List.insertionSort (· ≤ ·) (dictKeys (buildDict entries)) =
      sortedDistinctKeys entries := by
  unfold sortedDistinctKeys
  have h3 : List.Perm (dictKeys (buildDict entries))
      ((entries.map Prod.fst).dedup) := by
    rw [List.perm_ext_iff_of_nodup (buildDict_nodup entries)
      (List.nodup_dedup _)]
    intro a
    rw [buildDict_mem, List.mem_dedup]
  have hperm : List.Perm
      (List.insertionSort (· ≤ ·) (dictKeys (buildDict entries)))
      (List.insertionSort (· ≤ ·) ((entries.map Prod.fst).dedup)) := by
    have h1 := List.perm_insertionSort (· ≤ ·) (dictKeys (buildDict entries))
    have h2 := List.perm_insertionSort (· ≤ ·) ((entries.map Prod.fst).dedup)
    exact (h1.trans h3).trans h2.symm
  exact List.eq_of_perm_of_sorted hperm
    (List.sorted_insertionSort _ _) (List.sorted_insertionSort _ _)

/-- **C1.** Building a playlist from adapter-provided entries yields the
URLs ordered by ascending episode number with duplicate numbers resolved
last-write-wins: for every valid 1-based index `i`, `playlist[i]` is the
URL paired (last) with the `i`-th smallest distinct episode number of the
build input. -/
theorem playlist_build_sorted_last_write_wins
    (entries : List (Int × String)) (i : Int)
    (h1 : 1 ≤ i) (h2 : i ≤ ((getLinksToEpisodes entries).length : Int)) :
    (getLinksToEpisodes entries).length = (sortedDistinctKeys entries).length ∧
    ∃ k v, (sortedDistinctKeys entries).get? (i - 1).toNat = some k ∧
      lastValFor entries k = some v ∧
      pyGetItem (getLinksToEpisodes entries) (.int i) = .ok (.one v) := by
  have hlen : (getLinksToEpisodes entries).length =
      (sortedDistinctKeys entries).length := by
    unfold getLinksToEpisodes
    rw [List.length_map, sortedKeys_eq]
  refine ⟨hlen, ?_⟩
  have hidx : (i - 1).toNat < (sortedDistinctKeys entries).length := by
    omega
  have hk := List.get?_eq_get (l := sortedDistinctKeys entries) hidx
  set k := (sortedDistinctKeys entries).get ⟨(i - 1).toNat, hidx⟩ with hkdef
  have hkmem : k ∈ sortedDistinctKeys entries := List.get_mem _ _ _
  have hkmem2 : k ∈ entries.map Prod.fst := by
    have hp := (List.perm_insertionSort (· ≤ ·)
      ((entries.map Prod.fst).dedup)).mem_iff (a := k)
    unfold sortedDistinctKeys at hkmem
    rw [hp] at hkmem
    rwa [List.mem_dedup] at hkmem
  obtain ⟨v, hv⟩ : ∃ v, lastValFor entries k = some v := by
    have hsome := (mem_lastValFor entries k).mp hkmem2
    cases hl : lastValFor entries k with
    | none => rw [hl] at hsome; exact absurd hsome (by simp)
    | some v => exact ⟨v, rfl⟩
  refine ⟨k, v, hk, hv, ?_⟩
  rw [pyGetItem_int_of_range _ _ h1 h2]
  have hget : (getLinksToEpisodes entries).get? (i - 1).toNat = some v := by
    unfold getLinksToEpisodes
    rw [List.get?_map, sortedKeys_eq, hk]
    simp only [Option.map_some', buildDict_lookup, hv, Option.getD_some]
  rw [hget]

/-- Witness for C1: build input with labels (2, 1, 2) demonstrates
ascending order and last-write-wins; position 2 of the playlist is the
last URL written for episode 2. -/
theorem playlist_build_sorted_last_write_wins_witness :
    (getLinksToEpisodes [(2, "b"), (1, "a"), (2, "c")]).length =
      (sortedDistinctKeys [(2, "b"), (1, "a"), (2, "c")]).length ∧
    ∃ k v, (sortedDistinctKeys [(2, "b"), (1, "a"), (2, "c")]).get?
        ((2 : Int) - 1).toNat = some k ∧
      lastValFor [(2, "b"), (1, "a"), (2, "c")] k = some v ∧
      pyGetItem (getLinksToEpisodes [(2, "b"), (1, "a"), (2, "c")])
        (.int 2) = .ok (.one v) :=
  playlist_build_sorted_last_write_wins [(2, "b"), (1, "a"), (2, "c")] 2
    (by decide) (by decide)

/-- The playlist-relevant state of an `AnimevostPlaylist`
(`animevost.py`): the stored playlist (absent before the first build,
mirroring `hasattr(self, 'playlist')`) and the
`is_modified_after_update` flag. -/
structure APlaylistState where
  playlist : Option (List String)
  is_modified_after_update : Bool
  deriving DecidableEq, Repr

/-- `AnimevostPlaylist.update` (`animevost.py` lines 333-345) applied to
the playlist fetched from the API: if there is no stored playlist yet or
it differs from the fetched one, store the fetched playlist and set the
flag; otherwise keep the stored playlist and clear the flag. -/
def aUpdate (st : APlaylistState) (fetched : List String) : APlaylistState :=
  if (st.playlist.isSome = true ∧ st.playlist ≠ some fetched) ∨
      st.playlist = Option.none then
    { playlist := some fetched, is_modified_after_update := true }
  else
    { playlist := st.playlist, is_modified_after_update := false }

/-- `Playlist.update` (`sites/animevost.py` lines 277-283): after
`playlist_before = self.playlist` and the episode fetch, line 280 calls
`library.Playlist.__init__(self, self._get_links_to_episodes(),
copy=False)`; but `library.py`'s `Playlist.__init__(self, links, /)`
(line 157) accepts no `copy` parameter, so the call raises
`TypeError: unexpected keyword argument` on every execution, before the
playlist or the `is_modified_after_update` flag is touched. The
arguments record the prior playlist and the already-fetched links, both
computed before the raise. -/
def sUpdate (old fetched : List String) : Except PyErr (List String × Bool) :=
  .error .typeError

/-- **C4.** For `AnimevostPlaylist.update` (`animevost.py`) the claim
holds: the dirty flag is set iff this was the first-ever build or the
fetched playlist differs from the one held before the call, and the
stored playlist is (structurally) the fetched one. The other cited
implementation, `Playlist.update` in `sites/animevost.py`, instead
raises `TypeError` on every call (it passes a `copy` keyword that
`library.Playlist.__init__` does not accept), so it never stores a
playlist or sets the flag — contradicting its own docstring
("Update the playlist."). -/
theorem update_dirty_flag (st : APlaylistState) (old fetched : List String) :
    ((aUpdate st fetched).is_modified_after_update = true ↔
      st.playlist = Option.none ∨ st.playlist ≠ some fetched) ∧
    (aUpdate st fetched).playlist = some fetched ∧
    sUpdate old fetched = .error .typeError ∧
    (∀ pl flag, sUpdate old fetched ≠ .ok (pl, flag)) := by
  have key : ∀ h : ¬((st.playlist.isSome = true ∧ st.playlist ≠ some fetched) ∨
      st.playlist = Option.none), st.playlist = some fetched := by
    intro h
    have hnn : st.playlist ≠ Option.none := fun hh => h (Or.inr hh)
    cases hpl : st.playlist with
    | none => exact absurd hpl hnn
    | some l =>
      by_contra hne
      exact h (Or.inl ⟨by rw [hpl]; rfl,
        fun hx => hne (by rw [hpl] at hx; exact hx)⟩)
  refine ⟨?_, ?_, rfl, fun pl flag h => Except.noConfusion h⟩
  · unfold aUpdate
    by_cases h : (st.playlist.isSome = true ∧ st.playlist ≠ some fetched) ∨
        st.playlist = Option.none
    · rw [if_pos h]
      simp only [true_iff]
      rcases h with ⟨_, hne⟩ | hnone
      · exact Or.inr hne
      · exact Or.inl hnone
    · rw [if_neg h]
      simp only [Bool.false_eq_true, false_iff]
      have heq := key h
      rintro (hh | hh)
      · rw [heq] at hh; exact Option.noConfusion hh
      · exact hh heq
  · unfold aUpdate
    by_cases h : (st.playlist.isSome = true ∧ st.playlist ≠ some fetched) ∨
        st.playlist = Option.none
    · rw [if_pos h]
    · rw [if_neg h]
      exact key h

/-- The identity-relevant attributes of the abstract `library.Anime`
entity: `link`, `title` and the stored playlist. -/
structure LibAnime where
  link : String
  title : String
  playlist : List String
  deriving DecidableEq, Repr

/-- `Anime.__eq__` from `library.py` (lines 88-92): compare the
`(link, title, playlist)` triples. -/
def libAnimeEq (a b : LibAnime) : Bool :=
  decide ((a.link, a.title, a.playlist) = (b.link, b.title, b.playlist))

/-- The attributes of the concrete animevost entities (`Animevost` in
`animevost.py`, `Anime` in `sites/animevost.py`): the search-query text
and prompt text set at construction, plus the identity triple of the
selected release. -/
structure AnimevostEntity where
  searchQueryText : String
  promptText : String
  link : String
  title : String
  playlist : List String
  deriving DecidableEq, Repr

/-- `Animevost.__eq__` from `animevost.py` (lines 181-187): compare
`_search_query_text` and `_text_for_get_user_choice` only. -/
def animevostEq (a b : AnimevostEntity) : Bool :=
  decide (a.searchQueryText = b.searchQueryText ∧
    a.promptText = b.promptText)

/-- `Anime.__eq__` from `sites/animevost.py` (lines 136-140): the left
tuple is `(self._search_query_text, self._text_for_get_user_choice)` but
the right tuple is `(other._search_query_text,
self._text_for_get_user_choice)` — the prompt text is compared against
itself. -/
def sitesAnimeEq (a b : AnimevostEntity) : Bool :=
  decide ((a.searchQueryText, a.promptText) =
    (b.searchQueryText, a.promptText))

/-- **C5 (counterexample).** Two animevost entities with identical
source URL, title and playlist but different search-query texts compare
unequal under both animevost `__eq__`s, and two entities with different
playlists but identical query/prompt texts compare equal — so equality
of these entities is not driven by the (URL, title, playlist) triple. -/
theorem animevost_eq_ignores_triple :
    (animevostEq ⟨"q1", "p", "L", "T", ["u"]⟩ ⟨"q2", "p", "L", "T", ["u"]⟩
      = false) ∧
    (sitesAnimeEq ⟨"q1", "p", "L", "T", ["u"]⟩ ⟨"q2", "p", "L", "T", ["u"]⟩
      = false) ∧
    (animevostEq ⟨"q", "p", "L1", "T1", ["u1"]⟩ ⟨"q", "p", "L2", "T2", ["u2"]⟩
      = true) ∧
    (sitesAnimeEq ⟨"q", "p", "L1", "T1", ["u1"]⟩ ⟨"q", "p", "L2", "T2", ["u2"]⟩
      = true) := by
  decide

/-- **C5 (amended).** Equality of the abstract `library.Anime` entity is
driven exactly by the (link, title, playlist) triple; equality of the
`animevost.py` entity is driven exactly by the search-query text and the
prompt text; equality of the `sites/animevost.py` entity is driven
exactly by the search-query text alone (its `__eq__` compares the prompt
text of the left operand with itself). -/
theorem entity_equality_semantics (a b : LibAnime) (c d : AnimevostEntity) :
    (libAnimeEq a b = true ↔
      a.link = b.link ∧ a.title = b.title ∧ a.playlist = b.playlist) ∧
    (animevostEq c d = true ↔
      c.searchQueryText = d.searchQueryText ∧ c.promptText = d.promptText) ∧
    (sitesAnimeEq c d = true ↔ c.searchQueryText = d.searchQueryText) := by
  refine ⟨?_, ?_, ?_⟩ <;> simp [libAnimeEq, animevostEq, sitesAnimeEq]

/-- Numeric value of a digit run (`int(...)` on the matched text). -/
def digitsToNat (cs : List Char) : Nat :=
  cs.foldl (fun n c => 10 * n + (c.toNat - '0'.toNat)) 0

/-- Scan for the regex `(?<=/)\d+(?=-)`: at each position whose previous
character is `/` and whose character is a digit, the greedy `\d+` can only
match the maximal digit run (shorter prefixes are followed by a digit, not
`-`), which matches iff the run is followed by `-`; otherwise the scan
moves one character forward, exactly like `re.search`. -/
def searchIdAux : Option Char → List Char → Option (List Char)
  | _, [] => Option.none
  | prev, c :: rest =>
    if prev = some '/' ∧ c.isDigit = true then
      if ((c :: rest).dropWhile Char.isDigit).head? = some '-' then
        some ((c :: rest).takeWhile Char.isDigit)
      else searchIdAux (some c) rest
    else searchIdAux (some c) rest

/-- `re.search(r'(?<=/)\d+(?=-)', link)`, returning the matched digits. -/
def reSearchId (s : String) : Option (List Char) :=
  searchIdAux Option.none s.toList

/-- `Anime._get_id` (`sites/animevost.py` lines 123-126, same expression
in `animevost.py` lines 167-171):
`int(re.search(r'(?<=/)\d+(?=-)', link).group())`. When the search finds
no match it returns `None`, and `.group()` on `None` raises
`AttributeError`. -/
def getId (link : String) : Except PyErr Nat :=
  match reSearchId link with
  | some run => .ok (digitsToNat run)
  | Option.none => .error .attributeError

/-- **C6.** On a source URL with no digit run delimited by `/` and `-`,
`_get_id` raises `AttributeError` (from `.group()` on a failed match) —
not the distinct `LinkHasNoIDError` that `exceptions.py` declares for
this purpose and that the code never raises. On a well-formed URL the
numeric ID is extracted. -/
theorem getId_no_id_raises_attribute_error :
    getId "https://animevost.org/tip/tv/film.html" =
      .error .attributeError ∧
    getId "https://animevost.org/tip/tv/2147-naruto.html" = .ok 2147 ∧
    (Except.error PyErr.attributeError ≠
      (Except.error PyErr.linkHasNoIDError : Except PyErr Nat)) :=
  ⟨rfl, rfl, fun h => PyErr.noConfusion (Except.error.inj h)⟩

/-- Python `list.remove(x)`: delete the first element comparing equal to
`x` under the entity's `__eq__`, or signal `ValueError` (as `none`). -/
def pyListRemove (eq : LibAnime → LibAnime → Bool) :
    List LibAnime → LibAnime → Option (List LibAnime)
  | [], _ => Option.none
  | y :: ys, x =>
    if eq y x then some ys else (pyListRemove eq ys x).map (y :: ·)

/-- `remove_from_db` (`library.py` lines 413-425, same logic in
`Anime.delete_from_db`, `sites/animevost.py` lines 91-105): load the DB,
`db.remove(obj)`, re-raising `ValueError` as `ObjectNotFoundInDBError`
before `push_db` runs, else persist the shortened list. Returns the
operation result together with the persisted DB contents. -/
def remove_from_db (db : List LibAnime) (obj : LibAnime) :
    Except PyErr Unit × List LibAnime :=
  match pyListRemove libAnimeEq db obj with
  | some db2 => (.ok (), db2)
  | Option.none => (.error .objectNotFoundInDBError, db)

theorem libAnimeEq_iff (a b : LibAnime) : libAnimeEq a b = true ↔ a = b := by
  cases a
  cases b
  simp [libAnimeEq, LibAnime.mk.injEq]

theorem pyListRemove_eq (db : List LibAnime) (obj : LibAnime) :
    pyListRemove libAnimeEq db obj =
      if obj ∈ db then
        some (db.takeWhile (fun e => decide (e ≠ obj)) ++
          (db.dropWhile (fun e => decide (e ≠ obj))).tail)
      else Option.none := by
  induction db with
  | nil => simp [pyListRemove]
  | cons y ys ih =>
    simp only [pyListRemove]
    by_cases hy : y = obj
    · subst hy
      rw [if_pos (by rw [libAnimeEq_iff])]
      rw [if_pos (List.mem_cons_self y ys)]
      have hpred : (decide (y ≠ y)) = false := by simp
      rw [List.takeWhile_cons, List.dropWhile_cons]
      rw [hpred]
      simp
    · rw [if_neg (fun hc => hy ((libAnimeEq_iff y obj).mp hc))]
      have hpred : (decide (y ≠ obj)) = true := by simp [hy]
      rw [List.takeWhile_cons, List.dropWhile_cons, hpred]
      simp only [if_true]
      rw [ih]
      by_cases hmem : obj ∈ ys
      · rw [if_pos hmem, if_pos (List.mem_cons_of_mem _ hmem)]
        rfl
      · rw [if_neg hmem,
          if_neg (by simp only [List.mem_cons]; rintro (hh | hh)
                     · exact hy hh.symm
                     · exact hmem hh)]
        rfl

/-- **C7.** Removing an entity deletes the first structurally equal match
and persists the shortened collection (one element shorter); when no
match is present the operation fails with `ObjectNotFoundInDBError` and
the persisted contents are left unchanged. -/
theorem remove_from_db_semantics (db : List LibAnime) (obj : LibAnime) :
    (remove_from_db db obj =
      if obj ∈ db then
        (.ok (), db.takeWhile (fun e => decide (e ≠ obj)) ++
          (db.dropWhile (fun e => decide (e ≠ obj))).tail)
      else (.error .objectNotFoundInDBError, db)) ∧
    (obj ∈ db → ((remove_from_db db obj).2).length + 1 = db.length) := by
  constructor
  · rw [remove_from_db, pyListRemove_eq]
    by_cases hmem : obj ∈ db
    · rw [if_pos hmem, if_pos hmem]
    · rw [if_neg hmem, if_neg hmem]
  · intro hmem
    rw [remove_from_db, pyListRemove_eq, if_pos hmem]
    simp only [List.length_append]
    have hsplit : db.takeWhile (fun e => decide (e ≠ obj)) ++
        db.dropWhile (fun e => decide (e ≠ obj)) = db :=
      List.takeWhile_append_dropWhile _ _
    have hdrop : db.dropWhile (fun e => decide (e ≠ obj)) ≠ [] := by
      intro hnil
      have : obj ∈ db.takeWhile (fun e => decide (e ≠ obj)) := by
        rw [← hsplit] at hmem
        rw [hnil] at hmem
        simpa using hmem
      have := List.mem_takeWhile_imp this
      simp at this
    have hlen := congrArg List.length hsplit
    rw [List.length_append] at hlen
    cases hd : db.dropWhile (fun e => decide (e ≠ obj)) with
    | nil => exact absurd hd hdrop
    | cons z zs =>
      rw [hd] at hlen
      simp only [List.length_cons] at hlen
      simp only [List.tail_cons]
      omega

/-- Witness for C7: removing the first of two equal entries keeps the
rest; removing an absent entity errors and leaves the DB untouched. -/
theorem remove_from_db_semantics_witness :
    ((remove_from_db [⟨"l", "t", []⟩, ⟨"l2", "t2", []⟩]
        ⟨"l", "t", []⟩).2).length + 1 =
      ([⟨"l", "t", []⟩, ⟨"l2", "t2", []⟩] : List LibAnime).length :=
  (remove_from_db_semantics [⟨"l", "t", []⟩, ⟨"l2", "t2", []⟩]
    ⟨"l", "t", []⟩).2 (by decide)

/-- Python file open modes used by `Downloader._copy_url`:
`'ab'` (append) and `'wb'` (truncating write). -/
inductive FileMode
  | ab
  | wb
  deriving DecidableEq, Repr

/-- An HTTP response: the optional declared `Content-Length` and the
streamed body bytes. -/
structure Resp where
  contentLength : Option Nat
  body : List Nat
  deriving DecidableEq, Repr

/-- The `Range` header computed by `Downloader._get_response`
(`downloader.py` lines 202-215): `bytes=<temp size>-` iff `continue_` is
set and the temp file exists, none otherwise. The temp file is modelled
by its optional byte content. -/
def getResponseRange (continue_ : Bool) (temp : Option (List Nat)) :
    Option Nat :=
  if continue_ = true ∧ temp.isSome = true then some (temp.getD []).length
  else Option.none

/-- `temp_file_flags = 'ab' if self.continue_ else 'wb'`
(`downloader.py` line 190) — the mode depends only on `continue_`, not on
whether the temp file exists. -/
def tempFileFlags (continue_ : Bool) : FileMode :=
  if continue_ then .ab else .wb

/-- Opening the temp file: `'wb'` truncates (or creates empty), `'ab'`
keeps the existing content (or creates empty). -/
def openTemp : FileMode → Option (List Nat) → List Nat
  | .wb, _ => []
  | .ab, t => t.getD []

/-- `Downloader._get_response_size` (`downloader.py` lines 217-225):
`int(response.headers['Content-Length'])`, raising `KeyError` when the
header is missing. -/
def getResponseSize (r : Resp) : Except PyErr Nat :=
  match r.contentLength with
  | some n => .ok n
  | Option.none => .error .keyError

/-- `Downloader._copy_url` for one URL (`downloader.py` lines 179-200):
send the request (with the Range header from `_get_response`), compute
the flags, read the declared size (raising `KeyError` if absent, before
the temp file is opened), then open the temp file and append every chunk.
Returns the Range header sent, the open mode used, and the final temp
file content. -/
def copyUrl (continue_ : Bool) (temp : Option (List Nat)) (r : Resp) :
    Except PyErr (Option Nat × FileMode × List Nat) :=
  let range := getResponseRange continue_ temp
  let mode := tempFileFlags continue_
  match getResponseSize r with
  | .error e => .error e
  | .ok _ => .ok (range, mode, openTemp mode temp ++ r.body)

/-- **C8 (counterexample).** With resume enabled but no existing temp
file, `_copy_url` sends no Range header but opens the temp file in
append mode `'ab'`, not the truncating write mode `'wb'` the claim
states (the flags depend only on `continue_`). -/
theorem resume_without_temp_opens_append :
    copyUrl true Option.none ⟨some 3, [9, 9, 9]⟩ =
      .ok (Option.none, FileMode.ab, [9, 9, 9]) ∧
    FileMode.ab ≠ FileMode.wb :=
  ⟨rfl, fun h => FileMode.noConfusion h⟩

/-- **C8 (amended).** When resume is enabled and the temp file exists,
the request carries `Range: bytes=<temp size>-` and the temp file is
opened in append mode, so the final content is the old bytes followed by
the response body; when resume is disabled, no Range header is sent and
the file is opened in truncating write mode; when resume is enabled but
no temp file exists, no Range header is sent and the file is opened in
append mode on a fresh file — in both latter cases the download starts
from byte zero (final content is exactly the response body). -/
theorem resume_semantics (c : Bool) (temp : Option (List Nat)) (cl : Nat)
    (body : List Nat) :
    (c = true ∧ temp.isSome = true →
      copyUrl c temp ⟨some cl, body⟩ =
        .ok (some (temp.getD []).length, FileMode.ab, temp.getD [] ++ body)) ∧
    (c = false →
      copyUrl c temp ⟨some cl, body⟩ =
        .ok (Option.none, FileMode.wb, body)) ∧
    (c = true ∧ temp = Option.none →
      copyUrl c temp ⟨some cl, body⟩ =
        .ok (Option.none, FileMode.ab, body)) := by
  refine ⟨fun ⟨hc, ht⟩ => ?_, fun hc => ?_, fun ⟨hc, ht⟩ => ?_⟩
  · subst hc
    simp [copyUrl, getResponseRange, tempFileFlags, getResponseSize,
      openTemp, ht]
  · subst hc
    simp [copyUrl, getResponseRange, tempFileFlags, getResponseSize, openTemp]
  · subst hc
    subst ht
    simp [copyUrl, getResponseRange, tempFileFlags, getResponseSize, openTemp]

/-- Witness for C8: resuming with a 2-byte temp file requests
`bytes=2-` and appends; a fresh non-resumed download truncates. -/
theorem resume_semantics_witness :
    copyUrl true (some [1, 2]) ⟨some 3, [7]⟩ =
      .ok (some ((some [1, 2] : Option (List Nat)).getD []).length,
        FileMode.ab, (some [1, 2] : Option (List Nat)).getD [] ++ [7]) ∧
    copyUrl false (some [1, 2]) ⟨some 3, [7]⟩ =
      .ok (Option.none, FileMode.wb, [7]) :=
  ⟨(resume_semantics true (some [1, 2]) 3 [7]).1 ⟨rfl, rfl⟩,
   (resume_semantics false (some [1, 2]) 3 [7]).2.1 rfl⟩

/-- `library.download` (`library.py` lines 302-332): fetch the response;
if the `Content-Length` header is absent or the progress bar is disabled,
print the text and write the whole body; otherwise write the body in
chunks advancing a percentage bar. Returns the written file content and
whether percentage progress was shown. -/
def download (r : Resp) (progressBar : Bool) : List Nat × Bool :=
  if r.contentLength.isSome = false ∨ progressBar = false then (r.body, false)
  else (r.body, true)

/-- **C9 (counterexample).** A `Downloader` fetch of a URL whose response
lacks a declared `Content-Length` does not complete: `_copy_url` raises
`KeyError` from `_get_response_size` before the temp file is opened, so
no bytes are written for that URL. -/
theorem missing_content_length_fails_copy_url :
    copyUrl true Option.none ⟨Option.none, [1, 2, 3]⟩ =
      .error .keyError :=
  rfl

/-- **C9 (amended).** The legacy `library.download` tolerates a missing
`Content-Length`: the file's bytes are always written, with percentage
progress exactly when a size is declared and the progress bar is enabled;
the concurrent `Downloader._copy_url` instead fails such a URL with a
`KeyError` before writing anything (sibling URLs run in independent pool
tasks and are unaffected). -/
theorem missing_size_fallback (r : Resp) (pb c : Bool)
    (temp : Option (List Nat)) :
    (download r pb).1 = r.body ∧
    ((download r pb).2 = true ↔
      r.contentLength.isSome = true ∧ pb = true) ∧
    (r.contentLength = Option.none →
      copyUrl c temp r = .error .keyError) := by
  refine ⟨?_, ?_, fun h => ?_⟩
  · unfold download
    by_cases hc : r.contentLength.isSome = false ∨ pb = false
    · rw [if_pos hc]
    · rw [if_neg hc]
  · unfold download
    by_cases hc : r.contentLength.isSome = false ∨ pb = false
    · rw [if_pos hc]
      simp only [Bool.false_eq_true, false_iff]
      rintro ⟨h1, h2⟩
      rcases hc with hc | hc
      · rw [h1] at hc; exact Bool.noConfusion hc
      · rw [h2] at hc; exact Bool.noConfusion hc
    · rw [if_neg hc]
      push_neg at hc
      simp only [true_iff]
      obtain ⟨h1, h2⟩ := hc
      refine ⟨?_, ?_⟩
      · revert h1
        cases r.contentLength.isSome <;> simp
      · revert h2
        cases pb <;> simp
  · simp only [copyUrl, getResponseSize, h]

/-- Witness for C9: a response without `Content-Length` is still fully
written by `library.download` (without percentage), while
`Downloader._copy_url` fails on it with `KeyError`. -/
theorem missing_size_fallback_witness :
    (download ⟨Option.none, [1, 2]⟩ true).1 = [1, 2] ∧
    copyUrl true Option.none ⟨Option.none, [1, 2]⟩ = .error .keyError :=
  ⟨(missing_size_fallback ⟨Option.none, [1, 2]⟩ true true Option.none).1,
   (missing_size_fallback ⟨Option.none, [1, 2]⟩ true true Option.none).2.2 rfl⟩

/-- `update_and_save_all_db` (`library.py` lines 384-410) after the
per-entry `update_playlist()` calls (network effects): the loop appends
each updated entity to `updated_db` only if no equal entity is already
there, then persists `updated_db`. The input is the list of post-update
entities in DB order. -/
def updateAndSaveAllDb (updated : List LibAnime) : List LibAnime :=
  updated.foldl (fun acc anime => if anime ∈ acc then acc else acc ++ [anime])
    []

/-- Spec-side first-occurrence deduplication. -/
def dedupFirst : List LibAnime → List LibAnime
  | [] => []
  | x :: xs => x :: (dedupFirst xs).filter (fun y => decide (y ≠ x))

theorem updateAndSaveAllDb_go (l : List LibAnime) (acc : List LibAnime) :
    l.foldl (fun acc anime => if anime ∈ acc then acc else acc ++ [anime])
        acc =
      acc ++ (dedupFirst l).filter (fun y => decide (y ∉ acc)) := by
  induction l generalizing acc with
  | nil => simp [dedupFirst]
  | cons x xs ih =>
    simp only [List.foldl_cons, dedupFirst, List.filter_cons]
    by_cases hx : x ∈ acc
    · rw [if_pos hx]
      have hd : (decide (x ∉ acc)) = false := by simp [hx]
      rw [hd]
      simp only [Bool.false_eq_true, if_false]
      rw [ih, List.filter_filter]
      congr 1
      apply List.filter_congr
      intro y _
      by_cases hy : y ∈ acc
      · simp [hy]
      · simp only [decide_not]
        have h1 : (decide (y ∈ acc)) = false := by simp [hy]
        have h2 : (decide (y = x)) = false := by
          simp only [decide_eq_false_iff_not]
          intro hh
          subst hh
          exact hy hx
        simp [h1, h2]
    · rw [if_neg hx]
      have hd : (decide (x ∉ acc)) = true := by simp [hx]
      rw [hd]
      simp only [if_true]
      rw [ih, List.filter_filter, List.append_assoc, List.singleton_append]
      congr 2
      apply List.filter_congr
      intro y _
      by_cases hyx : y = x
      · subst hyx
        simp
      · by_cases hy : y ∈ acc
        · simp [hy, hyx]
        · simp [hy, hyx]

theorem dedupFirst_nodup (l : List LibAnime) : (dedupFirst l).Nodup := by
  induction l with
  | nil => simp [dedupFirst]
  | cons x xs ih =>
    simp only [dedupFirst, List.nodup_cons]
    refine ⟨?_, List.Nodup.filter _ ih⟩
    intro hmem
    have := List.of_mem_filter hmem
    simp at this

theorem dedupFirst_sublist (l : List LibAnime) :
    List.Sublist (dedupFirst l) l := by
  induction l with
  | nil => simp [dedupFirst]
  | cons x xs ih =>
    simp only [dedupFirst]
    exact List.Sublist.cons₂ x ((List.filter_sublist _).trans ih)

theorem mem_dedupFirst (l : List LibAnime) (a : LibAnime) :
    a ∈ dedupFirst l ↔ a ∈ l := by
  induction l with
  | nil => simp [dedupFirst]
  | cons x xs ih =>
    simp only [dedupFirst, List.mem_cons, List.mem_filter]
    by_cases hax : a = x
    · subst hax
      simp
    · simp only [hax, false_or]
      rw [← ih]
      constructor
      · rintro ⟨h, _⟩
        exact h
      · intro h
        exact ⟨h, by simpa using hax⟩

/-- **C10.** `update_and_save_all_db` persists the post-update entities
deduplicated to their first occurrence: the result contains no two
structurally equal entries, is a subsequence of the input (original
relative order preserved), keeps exactly the entities of the input, and
equals the first-occurrence deduplication of the input. -/
theorem update_and_save_all_db_dedups (updated : List LibAnime) :
    updateAndSaveAllDb updated = dedupFirst updated ∧
    (updateAndSaveAllDb updated).Nodup ∧
    List.Sublist (updateAndSaveAllDb updated) updated ∧
    (∀ a, a ∈ updateAndSaveAllDb updated ↔ a ∈ updated) := by
  have heq : updateAndSaveAllDb updated = dedupFirst updated := by
    rw [updateAndSaveAllDb, updateAndSaveAllDb_go]
    simp only [List.nil_append]
    have : ∀ y ∈ dedupFirst updated, (decide (y ∉ ([] : List LibAnime))) = true := by
      intro y _
      simp
    rw [List.filter_congr this]  -- turn into filter (fun _ => true)
    simp
  refine ⟨heq, ?_, ?_, ?_⟩
  · rw [heq]; exact dedupFirst_nodup updated
  · rw [heq]; exact dedupFirst_sublist updated
  · intro a
    rw [heq]
    exact mem_dedupFirst updated a

end AnimeDL
